import Mathlib

/-!
Verification development for the job-collection core (Job_collection.py).

The Python source is shallowly embedded as executable Lean definitions.
Conventions used throughout:
* Python strings are Lean `String` / `List Char`; `s.strip()` is `pyStrip`.
* Selenium / HTTP effects are modelled by passing the observed responses
  (page link entries, per-listing extraction outcomes, HTTP response shapes)
  as explicit inputs; the wall-clock budget and logging are not modelled.
* Machine integers do not occur: all Python ints involved are unbounded.
-/

/- ---------------------------------------------------------------------
   Generic string helpers (Python `in` on strings = substring test).
--------------------------------------------------------------------- -/

def listStartsWith : List Char → List Char → Bool
  | [], _ => true
  | _ :: _, [] => false
  | a :: as, b :: bs => a = b && listStartsWith as bs

def containsSubList (needle : List Char) : List Char → Bool
  | [] => needle.isEmpty
  | c :: rest => listStartsWith needle (c :: rest) || containsSubList needle rest

/-- Python `needle in hay` for strings. -/
def containsSub (needle hay : String) : Bool :=
  containsSubList needle.data hay.data

/-- ASCII whitespace, as stripped by Python `str.strip()`. -/
def isSpaceChar (c : Char) : Bool :=
  c = ' ' || c = '\t' || c = '\n' || c = '\r' || c = '\x0b' || c = '\x0c'

def stripChars (l : List Char) : List Char :=
  ((l.dropWhile isSpaceChar).reverse.dropWhile isSpaceChar).reverse

/-- Python `str.strip()` (ASCII whitespace). -/
def pyStrip (s : String) : String := String.mk (stripChars s.data)

/-- Python `str.lower()` for one ASCII character. -/
def lowerChar (c : Char) : Char :=
  if 'A' ≤ c && c ≤ 'Z' then Char.ofNat (c.toNat + 32) else c

/-- Python `str.lower()`. -/
def lowerStr (s : String) : String := String.mk (s.data.map lowerChar)

/-- Python `list(dict.fromkeys(xs))`: deduplicate keeping first occurrences. -/
def dedupFirstAux (seen : List String) : List String → List String
  | [] => []
  | a :: l => if seen.contains a then dedupFirstAux seen l
              else a :: dedupFirstAux (a :: seen) l

def dedupFirst (l : List String) : List String := dedupFirstAux [] l

/- ---------------------------------------------------------------------
   `_normalize_company_url` (Job_collection.py lines 60-72).

   The Python code is
     m = re.search(r"(https?://www\.linkedin\.com/company/[^/?#]+)", u, re.IGNORECASE)
     return "" if not m else m.group(1).rstrip("/") + "/"
   We model `re.search` concretely: scan positions left to right, at each
   position try to match the literal parts case-insensitively and then take
   the maximal (greedy) nonempty run of characters other than '/', '?', '#'.
   The matched text keeps the original casing, exactly as `m.group(1)` does.
--------------------------------------------------------------------- -/

/-- Case-insensitive literal match; returns the consumed original characters
and the rest of the input. The pattern is given in lowercase. -/
def matchLitCI : List Char → List Char → Option (List Char × List Char)
  | [], s => some ([], s)
  | _ :: _, [] => none
  | p :: ps, c :: cs =>
    if p = lowerChar c then
      match matchLitCI ps cs with
      | some (con, r) => some (c :: con, r)
      | none => none
    else none

def companyPat : List Char := "://www.linkedin.com/company/".data

/-- A character allowed inside the `[^/?#]+` slug class. -/
def slugChar (c : Char) : Bool := !(c = '/' || c = '?' || c = '#')

/-- Try the regex `https?://www\.linkedin\.com/company/[^/?#]+` at the head of
the input (case-insensitive, greedy optional `s` with backtracking); returns
the matched text in original casing. -/
def matchCompanyAt (s : List Char) : Option (List Char) :=
  match matchLitCI "http".data s with
  | none => none
  | some (c1, r1) =>
    let finish : List Char → List Char → Option (List Char) := fun con r =>
      let sl := r.takeWhile slugChar
      if sl.isEmpty then none else some (con ++ sl)
    let noS : Option (List Char) :=
      match matchLitCI companyPat r1 with
      | some (c2, r3) => finish (c1 ++ c2) r3
      | none => none
    match r1 with
    | c :: r2 =>
      if lowerChar c = 's' then
        match matchLitCI companyPat r2 with
        | some (c2, r3) => finish (c1 ++ [c] ++ c2) r3
        | none => noS
      else noS
    | [] => noS

/-- Python `re.search`: leftmost position where the pattern matches. -/
def searchCompany : List Char → Option (List Char)
  | [] => none
  | c :: cs =>
    match matchCompanyAt (c :: cs) with
    | some m => some m
    | none => searchCompany cs

/-- Python `str.rstrip("/")`. -/
def rstripSlash (l : List Char) : List Char :=
  (l.reverse.dropWhile (fun c => c = '/')).reverse

def normalize_company_url (url : String) : String :=
  let u := pyStrip url
  if u = "" then ""
  else
    match searchCompany u.data with
    | none => ""
    | some m => String.mk (rstripSlash m ++ ['/'])


/- ---------------------------------------------------------------------
   JobStore CSV schema migration (`JobStore._header`, lines 128-151, and
   `JobStore._ensure_header_or_upgrade`, lines 153-183).

   A store file is modelled at the level the code observes it:
   * `absent`  : the path does not exist, or `stat().st_size == 0`;
   * `corrupt` : `pd.read_csv` raises (the code logs and returns);
   * `table cols rows` : a parsed CSV with its column list and rows
     (each row is the list of cell strings aligned with `cols`).
--------------------------------------------------------------------- -/

inductive CsvFile where
  | absent
  | corrupt
  | table (cols : List String) (rows : List (List String))
deriving DecidableEq

/-- Model of `JobStore._header()`: the canonical column list. -/
def csvHeader : List String :=
  ["run_at", "posted_at", "timestamp", "jobID", "title", "company", "location",
   "workplace_type", "seniority", "employment_type", "easy_apply",
   "job_description", "job_url", "search_position", "search_location",
   "company_about_url", "company_size", "associated_members"]

/-- Reindexing one row to the canonical header: a wanted column keeps its old
value when the column existed, otherwise the sentinel, exactly what
`df[c] = "cannot fetch"` followed by `df.reindex(columns=wanted)` does. -/
def reindexRow (cols : List String) (r : List String) : List String :=
  csvHeader.map fun c =>
    if cols.contains c then r.getD (cols.indexOf c) "cannot fetch"
    else "cannot fetch"

/-- Model of `JobStore._ensure_header_or_upgrade`. -/
def ensure_header_or_upgrade : CsvFile → CsvFile
  | .absent => .table csvHeader []
  | .corrupt => .corrupt
  | .table cols rows =>
    let missing := csvHeader.filter (fun c => !(cols.contains c))
    if missing.isEmpty then .table cols rows
    else .table csvHeader (rows.map (reindexRow cols))

def fileCols : CsvFile → List String
  | .table cols _ => cols
  | _ => []

def fileRowCount : CsvFile → Nat
  | .table _ rows => rows.length
  | _ => 0

/- ---------------------------------------------------------------------
   JSON values, for the voyager endpoint payload (LinkedInAPIClient).
--------------------------------------------------------------------- -/

inductive JVal where
  | null
  | bool (b : Bool)
  | num (n : Int)
  | str (s : String)
  | arr (xs : List JVal)
  | obj (fields : List (String × JVal))

/-- Python truthiness of a JSON value (`if data:`): empty dict/list/string,
zero, None and False are falsy. -/
def jvalTruthy : JVal → Bool
  | .null => false
  | .bool b => b
  | .num n => n != 0
  | .str s => s != ""
  | .arr xs => !xs.isEmpty
  | .obj fs => !fs.isEmpty

/-- Python `isinstance(v, (int, float))` hits bools too (bool <: int);
the numeric value seen by comparisons. -/
def numVal : JVal → Option Int
  | .num n => some n
  | .bool b => some (if b then 1 else 0)
  | _ => none

/- `LinkedInAPIClient._find_long_strings` (lines 793-811): walk the payload
depth-first, collecting (path, stripped string) for strings whose stripped
length is at least `min_len`; then stable-sort by length, longest first. -/

mutual
def flsJ (minLen : Nat) (path : String) : JVal → List (String × String)
  | .obj fs => flsFields minLen path fs
  | .arr xs => flsArr minLen path 0 xs
  | .str x =>
    let s := pyStrip x
    if minLen ≤ s.length then [(path, s)] else []
  | _ => []

def flsFields (minLen : Nat) (path : String) : List (String × JVal) → List (String × String)
  | [] => []
  | (k, v) :: rest =>
    flsJ minLen (if path = "" then k else path ++ "." ++ k) v
      ++ flsFields minLen path rest

def flsArr (minLen : Nat) (path : String) (i : Nat) : List JVal → List (String × String)
  | [] => []
  | v :: rest =>
    flsJ minLen (path ++ "[" ++ toString i ++ "]") v ++ flsArr minLen path (i + 1) rest
end

/-- Stable insertion for descending-by-length order: an element goes before
the first element whose string is not longer, preserving the original order
among equal lengths -- the order `hits.sort(key=..., reverse=True)` yields. -/
def insertByLen (h : String × String) : List (String × String) → List (String × String)
  | [] => [h]
  | x :: xs =>
    if x.2.length ≤ h.2.length then h :: x :: xs else x :: insertByLen h xs

def sortByLenDesc : List (String × String) → List (String × String)
  | [] => []
  | x :: xs => insertByLen x (sortByLenDesc xs)

def find_long_strings (minLen : Nat) (data : JVal) : List (String × String) :=
  sortByLenDesc (flsJ minLen "" data)

/- ---------------------------------------------------------------------
   HTML text helpers used by the API client.
   `ihtml.unescape` is Python stdlib; the named character references that
   can occur in job descriptions are modelled (amp, lt, gt, quot, #39);
   other references pass through unchanged.
--------------------------------------------------------------------- -/

def unescapeChars : List Char → List Char
  | [] => []
  | '&' :: 'a' :: 'm' :: 'p' :: ';' :: rest => '&' :: unescapeChars rest
  | '&' :: 'l' :: 't' :: ';' :: rest => '<' :: unescapeChars rest
  | '&' :: 'g' :: 't' :: ';' :: rest => '>' :: unescapeChars rest
  | '&' :: 'q' :: 'u' :: 'o' :: 't' :: ';' :: rest => '"' :: unescapeChars rest
  | '&' :: '#' :: '3' :: '9' :: ';' :: rest => '\'' :: unescapeChars rest
  | c :: rest => c :: unescapeChars rest

def htmlUnescape (s : String) : String := String.mk (unescapeChars s.data)

/-- Skip to just after the next '>' (end of a tag). -/
def dropTag : List Char → List Char
  | [] => []
  | c :: rest => if c = '>' then rest else dropTag rest

theorem dropTag_length_le : ∀ l : List Char, (dropTag l).length ≤ l.length := by
  intro l
  induction l with
  | nil => simp [dropTag]
  | cons c rest ih =>
    simp only [dropTag]
    split
    · simp
    · exact Nat.le_succ_of_le ih

/-- BeautifulSoup `get_text`: the document text with tag markup removed. -/
def stripTags : List Char → List Char
  | [] => []
  | c :: rest =>
    if c = '<' then stripTags (dropTag rest) else c :: stripTags rest
termination_by l => l.length
decreasing_by
  · exact Nat.lt_succ_of_le (dropTag_length_le rest)
  · simp

def soupGetText (s : String) : String := pyStrip (String.mk (stripTags s.data))

/-- Python `re.sub` with pattern 3+ newlines: collapse such runs to 2. -/
def collapseNL : List Char → List Char
  | '\n' :: '\n' :: '\n' :: rest => collapseNL ('\n' :: '\n' :: rest)
  | c :: rest => c :: collapseNL rest
  | [] => []
termination_by l => l.length
decreasing_by all_goals simp_arith

def collapseNewlines (s : String) : String := String.mk (collapseNL s.data)

/- ---------------------------------------------------------------------
   `_format_ms_epoch` (lines 813-818): epoch milliseconds to
   "%Y-%m-%d %H:%M:%S".  `datetime.fromtimestamp` uses the local timezone;
   the model fixes the timezone to UTC (no claim depends on the offset).
--------------------------------------------------------------------- -/

def pad2 (n : Nat) : String := if n < 10 then "0" ++ toString n else toString n

def pad4 (n : Nat) : String :=
  if n < 10 then "000" ++ toString n
  else if n < 100 then "00" ++ toString n
  else if n < 1000 then "0" ++ toString n
  else toString n

/-- Civil date from days since 1970-01-01 (Hinnant's algorithm). -/
def civilFromDays (z0 : Int) : Int × Nat × Nat :=
  let z := z0 + 719468
  let era := Int.fdiv z 146097
  let doe := (z - era * 146097).toNat
  let yoe := (doe - doe / 1460 + doe / 36524 - doe / 146096) / 365
  let y := (yoe : Int) + era * 400
  let doy := doe - (365 * yoe + yoe / 4 - yoe / 100)
  let mp := (5 * doy + 2) / 153
  let d := doy - (153 * mp + 2) / 5 + 1
  let m := if mp < 10 then mp + 3 else mp - 9
  ((if m ≤ 2 then y + 1 else y), m, d)

def format_ms_epoch (ms : Int) : String :=
  let secs := Int.fdiv ms 1000
  let days := Int.fdiv secs 86400
  let rem := (secs - days * 86400).toNat
  let (y, m, d) := civilFromDays days
  pad4 y.toNat ++ "-" ++ pad2 m ++ "-" ++ pad2 d ++ " "
    ++ pad2 (rem / 3600) ++ ":" ++ pad2 (rem % 3600 / 60) ++ ":" ++ pad2 (rem % 60)

/- ---------------------------------------------------------------------
   `_find_first_ms_by_keys_recursive` (lines 820-835) and
   `_extract_posted_at` (lines 837-843).
--------------------------------------------------------------------- -/

mutual
def findMsJ (keys : List String) : JVal → Option Int
  | .obj fs =>
    match keys.findSome? (fun k =>
      match (fs.find? (fun kv => kv.1 = k)).map Prod.snd with
      | some v =>
        match numVal v with
        | some n => if 0 < n then some n else none
        | none => none
      | none => none) with
    | some n => some n
    | none => findMsFields keys fs
  | .arr xs => findMsArr keys xs
  | _ => none

def findMsFields (keys : List String) : List (String × JVal) → Option Int
  | [] => none
  | (_, v) :: rest =>
    match findMsJ keys v with
    | some n => some n
    | none => findMsFields keys rest

def findMsArr (keys : List String) : List JVal → Option Int
  | [] => none
  | v :: rest =>
    match findMsJ keys v with
    | some n => some n
    | none => findMsArr keys rest
end

def extract_posted_at (data : JVal) : String :=
  match findMsJ ["listedAt"] data with
  | some ts => format_ms_epoch ts
  | none =>
    match findMsJ ["originalListedAt"] data with
    | some ts => format_ms_epoch ts
    | none => ""

/- ---------------------------------------------------------------------
   LinkedInAPIClient endpoints (lines 845-932).

   HTTP effects are modelled by the observed response:
   * `raised`   : `session.get` raised (network error / timeout);
   * `status`   : HTTP status code;
   * `bodyBlank`: `not (r.text or "").strip()`.
   For the guest endpoint the BeautifulSoup view of the body is part of the
   response model: `containers` holds, in the order the code tries them, the
   `select_one` result for each of the four candidate selectors (`none` when
   the selector finds nothing, otherwise the `get_text` of the element), and
   `fullText` is `_html_to_text(r.text)` for the whole-document fallback.
   For the voyager endpoint `parsed` is the result of `json.loads` after the
   anti-scraping guard prefix is stripped (`none` when parsing fails, in
   which case the `r.json()` retry fails the same way).
--------------------------------------------------------------------- -/

structure GuestResp where
  raised : Bool
  status : Nat
  bodyBlank : Bool
  containers : List (Option String)
  fullText : String

structure VoyagerResp where
  raised : Bool
  status : Nat
  bodyBlank : Bool
  parsed : Option JVal

/-- The `for c in candidates` loop of `fetch_guest_jd` (lines 861-871):
first present container whose stripped text is longer than 80. -/
def guestPickContainer : List (Option String) → Option String
  | [] => none
  | none :: rest => guestPickContainer rest
  | some t :: rest =>
    if 80 < (pyStrip t).length then some (pyStrip t) else guestPickContainer rest

/-- Model of `LinkedInAPIClient.fetch_guest_jd` (lines 845-874). -/
def fetch_guest_jd (r : GuestResp) : String :=
  if r.raised then ""
  else if r.status ≠ 200 || r.bodyBlank then ""
  else
    match guestPickContainer r.containers with
    | some txt => txt
    | none => if 80 < (pyStrip r.fullText).length then r.fullText else ""

/-- Model of `LinkedInAPIClient.fetch_voyager_json` (lines 876-902). -/
def fetch_voyager_json (r : VoyagerResp) : JVal :=
  if r.raised then .obj []
  else if r.status ≠ 200 || r.bodyBlank then .obj []
  else
    match r.parsed with
    | some j => j
    | none => .obj []

/-- The voyager-derived description (`fetch_jd_and_posted_at` lines 913-929):
first long string whose path mentions "description" among the 200 longest
hits, else the longest hit; then unescape, strip markup if it looks like
HTML, collapse blank runs, strip; kept only if longer than 80. -/
def voyagerJdOf (data : JVal) : String :=
  let hits := find_long_strings 200 data
  let best :=
    match (hits.take 200).find? (fun h => containsSub "description" (lowerStr h.1)) with
    | some h => h.2
    | none =>
      match hits with
      | h :: _ => h.2
      | [] => ""
  if best = "" then ""
  else
    let b1 := htmlUnescape best
    let b2 :=
      if containsSub "<" b1 && containsSub ">" b1 then soupGetText b1 else b1
    let b3 := pyStrip (collapseNewlines b2)
    if 80 < b3.length then b3 else ""

/-- Model of `LinkedInAPIClient.fetch_jd_and_posted_at` (lines 904-932).  The cookie
refresh at `idx % 20 == 0` mutates only the HTTP session, never the returned
pair, so `idx` does not influence the result. -/
def fetch_jd_and_posted_at (g : GuestResp) (v : VoyagerResp) (idx : Nat) : String × String :=
  let _ := idx % 20
  let jd_guest := fetch_guest_jd g
  let data := fetch_voyager_json v
  let posted_at := if jvalTruthy data then extract_posted_at data else ""
  let jd_voyager := if jvalTruthy data then voyagerJdOf data else ""
  let jd_final := if jd_guest ≠ "" then jd_guest else jd_voyager
  (jd_final, posted_at)

/- ---------------------------------------------------------------------
   JobStore in-memory state and the Collection Orchestrator
   (JobStore.has/add lines 206-245, LinkedInBrowser.collect_job_ids_from_result
   lines 410-435, JobCollector lines 938-1197).

   Dates: the only use the orchestrator makes of a record's `posted_at`
   string is `_parse_posted_at` (strptime, `None` on failure) followed by
   `(datetime.now() - dt).days` (lines 1084-1097).  A record's posting date
   is therefore modelled by `postedAge : Option Nat` -- `none` when
   `posted_at` is empty or unparseable, `some d` when it parses to a
   datetime `d` whole days before now.
--------------------------------------------------------------------- -/

structure RecM where
  jobID : String
  title : String
  job_description : String
  postedAge : Option Nat
  company_about_url : String
  company_size : String
  associated_members : String
deriving DecidableEq

/-- The store state the orchestrator interacts with: the appended rows (in
append order) and the `savedJobIDs` dedupe index.  The `checked_companies`
index only gates enrichment work and is not involved in any claim. -/
structure StoreM where
  rows : List RecM
  savedJobIDs : List String
deriving DecidableEq

/-- Model of `JobStore.has` (line 206). -/
def storeHas (st : StoreM) (id : String) : Bool := st.savedJobIDs.contains id

/-- Model of `JobStore.add` (lines 213-239): append one row, update the id index. -/
def storeAdd (st : StoreM) (r : RecM) : StoreM :=
  { rows := st.rows ++ [r], savedJobIDs := r.jobID :: st.savedJobIDs }

/-- The stop-policy and filter configuration (JobCollector.__init__,
lines 941-998).  The constructor clamps both consecutive limits with
`max(1, ...)`; theorems carry that as the hypothesis `1 ≤ limit`. -/
structure CollectorCfg where
  stop_old_posted_enabled : Bool
  stop_old_posted_consecutive_limit : Nat
  stop_old_posted_days_threshold : Nat
  stop_empty_pages_enabled : Bool
  stop_empty_pages_consecutive_limit : Nat
  blacklist : List String
  blackListTitles : List String
  fetch_company_about_enabled : Bool

/-- Model of `JobCollector._is_older_than_threshold` (lines 1092-1097) composed with
`_parse_posted_at`: `false` when the date is missing/unparseable, else
`delta_days > threshold`. -/
def _is_older_than_threshold (threshold : Nat) (age : Option Nat) : Bool :=
  match age with
  | none => false
  | some d => threshold < d

/-- The guard `posted_at and self._is_older_than_threshold(posted_at)` of
line 1173; an empty `posted_at` is one of the `none` cases of `postedAge`. -/
def staleAppend (cfg : CollectorCfg) (age : Option Nat) : Bool :=
  age.isSome && _is_older_than_threshold cfg.stop_old_posted_days_threshold age

/-- The title blacklist check of lines 1140-1143. -/
def titleBlacklisted (cfg : CollectorCfg) (title : String) : Bool :=
  !cfg.blackListTitles.isEmpty && title ≠ ""
    && cfg.blackListTitles.any (fun word => containsSub (lowerStr word) (lowerStr title))

/-- What the world supplies for one successfully processed listing: the
extracted fields and fallback results that end up in the JobRecord, plus the
outcome of the company-about enrichment block (lines 1114-1137):
`none` models an exception inside that inner try (caught there, fields keep
their "cannot fetch" defaults), `some (url, size, members)` the returned
triple. -/
structure ListingData where
  title : String
  job_description : String
  postedAge : Option Nat
  enrichment : Option (String × String × String)
deriving DecidableEq

/-- Outcome of processing one listing id:
`raise` = an exception at the per-listing boundary (navigation, field
extraction, fallback retrieval or store append -- lines 1194-1195 catch it);
`ok d` = all per-listing steps completed, yielding `d`. -/
inductive ListingOutcome where
  | raise
  | ok (d : ListingData)
deriving DecidableEq

/-- Lines 1115-1137: the enrichment triple actually used for the record. -/
def enrichmentFields (cfg : CollectorCfg) (d : ListingData) : String × String × String :=
  if cfg.fetch_company_about_enabled then
    match d.enrichment with
    | some t => t
    | none => ("cannot fetch", "cannot fetch", "cannot fetch")
  else ("cannot fetch", "cannot fetch", "cannot fetch")

/-- The `x or "cannot fetch"` defaults of lines 1161-1163. -/
def orCannotFetch (s : String) : String := if s = "" then "cannot fetch" else s

structure CollectRes where
  store : StoreM
  streak : Nat
  shouldStop : Bool
deriving DecidableEq

/-- Model of `JobCollector._collect_jobs` (lines 1099-1197), with the running
`old_job_streak` made explicit.  Skipped listings (already saved, raised,
blacklisted title) leave both the store and the streak unchanged; an
appended record updates the streak per the Stop-B policy and the loop
returns `True` as soon as the streak reaches the limit. -/
def collectJobsAux (cfg : CollectorCfg) (st : StoreM) (streak : Nat) :
    List (String × ListingOutcome) → CollectRes
  | [] => ⟨st, streak, false⟩
  | (jobID, out) :: rest =>
    if storeHas st jobID then collectJobsAux cfg st streak rest
    else
      match out with
      | .raise => collectJobsAux cfg st streak rest
      | .ok d =>
        let ef := enrichmentFields cfg d
        if titleBlacklisted cfg d.title then collectJobsAux cfg st streak rest
        else
          let st' := storeAdd st
            ⟨jobID, d.title, d.job_description, d.postedAge,
             orCannotFetch ef.1, orCannotFetch ef.2.1, orCannotFetch ef.2.2⟩
          if cfg.stop_old_posted_enabled then
            let streak' := if staleAppend cfg d.postedAge then streak + 1 else 0
            if cfg.stop_old_posted_consecutive_limit ≤ streak' then ⟨st', streak', true⟩
            else collectJobsAux cfg st' streak' rest
          else collectJobsAux cfg st' streak rest

/-- Entry point `_collect_jobs`: `old_job_streak = 0` on entry (line 1100). -/
def _collect_jobs (cfg : CollectorCfg) (st : StoreM)
    (jobs : List (String × ListingOutcome)) : StoreM × Bool :=
  let r := collectJobsAux cfg st 0 jobs
  (r.store, r.shouldStop)

/- ---------------------------------------------------------------------
   `LinkedInBrowser.collect_job_ids_from_result` (lines 410-435).
--------------------------------------------------------------------- -/

/-- One element matching the results locator: its rendered text, its
`data-job-id` attribute, and whether reading it raised (the per-link
`except: continue`). -/
structure LinkEntry where
  raises : Bool
  text : String
  dataJobId : Option String
deriving DecidableEq

def collect_job_ids_from_result (blacklist : List String) (saved : List String)
    (links : List LinkEntry) : List String :=
  dedupFirst (links.filterMap fun l =>
    if l.raises then none
    else if containsSub "Applied" l.text then none
    else if blacklist.contains l.text then none
    else
      match l.dataJobId with
      | none => none
      | some j =>
        if j = "" || j = "search" then none
        else if saved.contains j then none
        else some j)

/- ---------------------------------------------------------------------
   `JobCollector._search_one_combo` (lines 1013-1082): the per-combination
   page loop.  A page is modelled by the link elements the rendered results
   list exposes and by the listing outcomes detail processing would observe;
   the wall-clock budget bounds how many pages the loop sees, so the loop is
   run on the finite list of pages it would visit, and loop-level exceptions
   (line 1081-1082, which merely retry) are not modelled.  The result keeps
   the per-page trace of new-id counts, exactly the numbers the code logs.
--------------------------------------------------------------------- -/

structure PageM where
  links : List LinkEntry
  outcome : String → ListingOutcome

structure ComboRes where
  store : StoreM
  trace : List Nat
  stoppedByEmpty : Bool
  stoppedByOld : Bool

def searchOneComboAux (cfg : CollectorCfg) (st : StoreM) (es : Nat) :
    List PageM → ComboRes
  | [] => ⟨st, [], false, false⟩
  | p :: rest =>
    let jobIDs := collect_job_ids_from_result cfg.blacklist st.savedJobIDs p.links
    let n := jobIDs.length
    let es' := if cfg.stop_empty_pages_enabled then
        (if jobIDs.isEmpty then es + 1 else 0) else es
    if cfg.stop_empty_pages_enabled
        && cfg.stop_empty_pages_consecutive_limit ≤ es' then
      ⟨st, [n], true, false⟩
    else if jobIDs.isEmpty then
      let r := searchOneComboAux cfg st es' rest
      ⟨r.store, n :: r.trace, r.stoppedByEmpty, r.stoppedByOld⟩
    else
      let pr := _collect_jobs cfg st (jobIDs.map (fun i => (i, p.outcome i)))
      if pr.2 then ⟨pr.1, [n], false, true⟩
      else
        let r := searchOneComboAux cfg pr.1 es' rest
        ⟨r.store, n :: r.trace, r.stoppedByEmpty, r.stoppedByOld⟩

/-- Entry point `_search_one_combo`: `empty_page_streak = 0` on entry (line 1017). -/
def _search_one_combo (cfg : CollectorCfg) (st : StoreM) (pages : List PageM) :
    ComboRes :=
  searchOneComboAux cfg st 0 pages

/- ---------------------------------------------------------------------
   Streak bookkeeping used to state the two consecutive-counter policies.
--------------------------------------------------------------------- -/

/-- Length of the maximal leading run satisfying `p`. -/
def leadCount {α : Type} (p : α → Bool) : List α → Nat
  | [] => 0
  | a :: t => if p a then leadCount p t + 1 else 0

/-- Length of the maximal trailing run satisfying `p`. -/
def trailCount {α : Type} (p : α → Bool) (l : List α) : Nat :=
  leadCount p l.reverse

/-- The last `N` entries of `flags` exist and are all `true`: an uninterrupted
run of `N` flagged items at the end of the sequence. -/
def trailWindow (N : Nat) (flags : List Bool) : Prop :=
  N ≤ flags.length ∧ flags.reverse.take N = List.replicate N true

instance (N : Nat) (flags : List Bool) : Decidable (trailWindow N flags) :=
  inferInstanceAs (Decidable (_ ∧ _))

/-- Per-page emptiness flags of a run trace: `true` marks a page that yielded
zero new identifiers. -/
def emptyFlags (t : List Nat) : List Bool := t.map (fun c => c == 0)

/-- The store's dedupe invariant: the persisted rows carry pairwise distinct
listing identifiers, and every persisted identifier is in the in-memory
`savedJobIDs` index. -/
def storeInv (st : StoreM) : Prop :=
  (st.rows.map RecM.jobID).Nodup
    ∧ ∀ r ∈ st.rows, st.savedJobIDs.contains r.jobID = true

instance (st : StoreM) : Decidable (storeInv st) :=
  inferInstanceAs (Decidable (_ ∧ _))

/- ---------------------------------------------------------------------
   Concrete instances used by counterexamples and witnesses.
--------------------------------------------------------------------- -/

def emptyStore : StoreM := ⟨[], []⟩

/-- Stop-B configuration: enabled, limit 3, threshold 30 days. -/
def cfgStopB : CollectorCfg := ⟨true, 3, 30, false, 3, [], [], false⟩

/-- Stop-C configuration: enabled, limit 3; Stop-B disabled. -/
def cfgStopC : CollectorCfg := ⟨false, 10, 7, false, 3, [], [], false⟩

/-- Like `cfgStopC` but with the empty-pages policy enabled. -/
def cfgStopCon : CollectorCfg := ⟨false, 10, 7, true, 3, [], [], false⟩

/-- Enrichment enabled, both stop policies off. -/
def cfgEnrich : CollectorCfg := ⟨false, 10, 7, false, 3, [], [], true⟩

def listingAge (age : Option Nat) : ListingData := ⟨"Engineer", "jd", age, none⟩

/-- Posting ages 40d, 40d, unknown, 40d -- the spec's Stop-B example. -/
def staleSeq4 : List (String × ListingOutcome) :=
  [("1", .ok (listingAge (some 40))), ("2", .ok (listingAge (some 40))),
   ("3", .ok (listingAge none)), ("4", .ok (listingAge (some 40)))]

/-- A listing whose company-about enrichment raises (inner try). -/
def dEnrichFail : ListingData := ⟨"Engineer", "desc", some 1, none⟩

/-- Successful guest response in which no known container is present but the
whole document text is long. -/
def guestNoContainerResp : GuestResp :=
  ⟨false, 200, false, [none, none, none, none], String.mk (List.replicate 100 'a')⟩

/-- A results page with no link elements at all. -/
def emptyPage : PageM := ⟨[], fun _ => ListingOutcome.raise⟩

def pagesEmpty3 : List PageM := [emptyPage, emptyPage, emptyPage]

def linkA : LinkEntry := ⟨false, "Data Engineer", some "42"⟩

def pageA : PageM := ⟨[linkA], fun _ => ListingOutcome.ok (listingAge (some 1))⟩

def recA : RecM :=
  ⟨"7", "T", "D", some 1, "cannot fetch", "cannot fetch", "cannot fetch"⟩

def storeA : StoreM := ⟨[recA], ["7"]⟩

/-- A link whose id is already saved in `storeA`. -/
def linkSaved : LinkEntry := ⟨false, "Data Engineer", some "7"⟩

def pageSaved : PageM := ⟨[linkSaved], fun _ => ListingOutcome.ok (listingAge (some 1))⟩

/-- Guest request that raised. -/
def guestFail : GuestResp := ⟨true, 0, true, [], ""⟩

/-- Voyager response whose body is not parseable JSON. -/
def voyagerBadJson : VoyagerResp := ⟨false, 200, false, none⟩

/-- Voyager response with a listedAt timestamp. -/
def voyagerPayload : VoyagerResp :=
  ⟨false, 200, false, some (.obj [("listedAt", .num 1700000000000)])⟩

/-- Guest response whose second container qualifies. -/
def guestContainerResp : GuestResp :=
  ⟨false, 200, false, [none, some (String.mk (List.replicate 100 'b'))], "short"⟩

/-- Three all-stale appended listings (ages 40d each). -/
def staleSeq3 : List (String × ListingData) :=
  [("1", listingAge (some 40)), ("2", listingAge (some 40)), ("3", listingAge (some 40))]

/- =====================================================================
   Helper lemmas.
===================================================================== -/

theorem string_data_append (a b : String) : (a ++ b).data = a.data ++ b.data := rfl

/-- The canonical header is never missing from itself. -/
theorem csvHeader_complete :
    (csvHeader.filter (fun c => !(csvHeader.contains c))).isEmpty = true := by decide

theorem getD_map_indexOf (f : String → String) :
    ∀ (hdr : List String) (c : String), c ∈ hdr →
      (hdr.map f).getD (hdr.indexOf c) "" = f c := by
  intro hdr
  induction hdr with
  | nil => intro c hc; cases hc
  | cons h t ih =>
    intro c hc
    by_cases hch : c = h
    · subst hch
      simp [List.indexOf_cons_self, List.getD]
    · have hmem : c ∈ t := by
        cases hc with
        | head => exact absurd rfl hch
        | tail _ h' => exact h'
      have : (h :: t).indexOf c = t.indexOf c + 1 := by
        rw [List.indexOf_cons_ne _ (fun h' => hch h'.symm)]
      rw [this]
      simpa [List.getD] using ih c hmem

/- =====================================================================
   C4: schema migration is an idempotent fixed point.
===================================================================== -/

theorem ensure_table_complete (cols : List String) (rows : List (List String))
    (h : (csvHeader.filter (fun c => !(cols.contains c))).isEmpty = true) :
    ensure_header_or_upgrade (.table cols rows) = .table cols rows := by
  simp only [ensure_header_or_upgrade, h, if_pos]

/-- C4 (claim theorem): migration at store open is idempotent: migrating
any file twice equals migrating it once; migrating a parsed table preserves
its row count; after migration every canonical column is present; and a
canonical column that was missing is filled with the sentinel value in every
reindexed row. -/
theorem C4_migration_fixed_point :
    (∀ f : CsvFile,
        ensure_header_or_upgrade (ensure_header_or_upgrade f) = ensure_header_or_upgrade f)
    ∧ (∀ cols rows,
        fileRowCount (ensure_header_or_upgrade (.table cols rows)) = rows.length)
    ∧ (∀ cols rows,
        (csvHeader.all fun c =>
          (fileCols (ensure_header_or_upgrade (.table cols rows))).contains c) = true)
    ∧ (∀ cols r c, c ∈ csvHeader → cols.contains c = false →
        (reindexRow cols r).getD (csvHeader.indexOf c) "" = "cannot fetch") := by
  refine ⟨?_, ?_, ?_, ?_⟩
  · intro f
    cases f with
    | absent =>
      show ensure_header_or_upgrade (.table csvHeader []) = .table csvHeader []
      exact ensure_table_complete _ _ csvHeader_complete
    | corrupt => rfl
    | table cols rows =>
      by_cases h : (csvHeader.filter (fun c => !(cols.contains c))).isEmpty = true
      · rw [ensure_table_complete _ _ h, ensure_table_complete _ _ h]
      · have h2 : ensure_header_or_upgrade (.table cols rows)
            = .table csvHeader (rows.map (reindexRow cols)) := by
          simp only [ensure_header_or_upgrade]
          rw [if_neg h]
        rw [h2, ensure_table_complete _ _ csvHeader_complete]
  · intro cols rows
    by_cases h : (csvHeader.filter (fun c => !(cols.contains c))).isEmpty = true
    · rw [ensure_table_complete _ _ h]
      rfl
    · simp only [ensure_header_or_upgrade]
      rw [if_neg h]
      simp [fileRowCount]
  · intro cols rows
    by_cases h : (csvHeader.filter (fun c => !(cols.contains c))).isEmpty = true
    · rw [ensure_table_complete _ _ h]
      rw [List.isEmpty_iff, List.filter_eq_nil_iff] at h
      rw [List.all_eq_true]
      intro c hc
      have := h c hc
      simp only [Bool.not_eq_true'] at this
      simp only [Bool.not_eq_false] at this
      exact this
    · simp only [ensure_header_or_upgrade]
      rw [if_neg h]
      simp only [fileCols]
      decide
  · intro cols r c hc hmiss
    have hnot : c ∉ cols := by simpa using hmiss
    have := getD_map_indexOf
      (fun c => if cols.contains c then r.getD (cols.indexOf c) "cannot fetch"
                else "cannot fetch") csvHeader c hc
    simpa [reindexRow, hnot] using this

/-- Witness for C4's hypothesis-bearing conjunct: "easy_apply" is canonical,
missing from a legacy two-column file, and filled with the sentinel. -/
theorem C4_witness :
    (reindexRow ["timestamp", "jobID"] ["t0", "42"]).getD
      (csvHeader.indexOf "easy_apply") "" = "cannot fetch" :=
  C4_migration_fixed_point.2.2.2 ["timestamp", "jobID"] ["t0", "42"] "easy_apply"
    (by decide) (by decide)

/- =====================================================================
   C6: description preference and posted-at provenance.
===================================================================== -/

/-- C6 (claim theorem): a non-empty guest description is used verbatim;
an empty one falls back to the JSON-derived description; the posting time is
computed from the voyager payload alone and does not depend on the guest
response in any way. -/
theorem C6_description_preference (g : GuestResp) (v : VoyagerResp) (idx : Nat) :
    (fetch_guest_jd g ≠ "" → (fetch_jd_and_posted_at g v idx).1 = fetch_guest_jd g)
    ∧ (fetch_guest_jd g = "" → (fetch_jd_and_posted_at g v idx).1 =
        (if jvalTruthy (fetch_voyager_json v) then voyagerJdOf (fetch_voyager_json v) else ""))
    ∧ ((fetch_jd_and_posted_at g v idx).2 =
        (if jvalTruthy (fetch_voyager_json v) then extract_posted_at (fetch_voyager_json v) else ""))
    ∧ (∀ (g' : GuestResp) (idx' : Nat),
        (fetch_jd_and_posted_at g' v idx').2 = (fetch_jd_and_posted_at g v idx).2) := by
  refine ⟨?_, ?_, ?_, ?_⟩
  · intro h
    simp [fetch_jd_and_posted_at, h]
  · intro h
    simp [fetch_jd_and_posted_at, h]
  · simp [fetch_jd_and_posted_at]
  · intro g' idx'
    simp [fetch_jd_and_posted_at]

/-- Witness for C6: a long guest description wins over the JSON payload. -/
theorem C6_witness :
    (fetch_jd_and_posted_at guestNoContainerResp voyagerPayload 1).1
      = fetch_guest_jd guestNoContainerResp :=
  (C6_description_preference guestNoContainerResp voyagerPayload 1).1 (by decide)

/- =====================================================================
   C7: guest description extraction.
===================================================================== -/

theorem guestPickContainer_eq_find (cs : List (Option String)) :
    guestPickContainer cs
      = ((cs.filterMap id).find? (fun t => 80 < (pyStrip t).length)).map pyStrip := by
  induction cs with
  | nil => rfl
  | cons c rest ih =>
    cases c with
    | none => simpa [guestPickContainer] using ih
    | some t =>
      by_cases h : 80 < (pyStrip t).length
      · simp [guestPickContainer, h]
      · simp [guestPickContainer, h, ih]

/-- C7 (counterexample to the claim as stated): in a successful response
where none of the known containers is present at all (so none qualifies),
the returned description is not the empty string -- the code falls back to
the text of the whole document when it is long enough. -/
theorem C7_counterexample :
    guestNoContainerResp.containers.all Option.isNone = true
      ∧ fetch_guest_jd guestNoContainerResp ≠ "" := by
  constructor
  · rfl
  · decide

/-- C7 (amended claim theorem): for a successful guest response, the
result is the stripped text of the first present container whose stripped
text exceeds 80 characters; when no container qualifies, the whole-document
text is returned if its stripped form exceeds 80 characters, else the empty
string. -/
theorem C7_amended_guest_extraction (r : GuestResp)
    (h1 : r.raised = false) (h2 : r.status = 200) (h3 : r.bodyBlank = false) :
    fetch_guest_jd r =
      match (r.containers.filterMap id).find? (fun t => 80 < (pyStrip t).length) with
      | some t => pyStrip t
      | none => if 80 < (pyStrip r.fullText).length then r.fullText else "" := by
  rw [fetch_guest_jd, guestPickContainer_eq_find]
  cases hf : (r.containers.filterMap id).find? (fun t => 80 < (pyStrip t).length) with
  | none => simp [h1, h2, h3]
  | some t => simp [h1, h2, h3]

/-- Witness for C7 (amended): a qualifying second container is returned. -/
theorem C7_witness :
    fetch_guest_jd guestContainerResp =
      match (guestContainerResp.containers.filterMap id).find?
          (fun t => 80 < (pyStrip t).length) with
      | some t => pyStrip t
      | none =>
        if 80 < (pyStrip guestContainerResp.fullText).length
        then guestContainerResp.fullText else "" :=
  C7_amended_guest_extraction guestContainerResp rfl rfl rfl

/- =====================================================================
   C8: fallback-client failures degrade to empty results, per call.
===================================================================== -/

/-- C8 (claim theorem): a raised request, non-200 status or blank body
makes the guest call return ""; the same conditions or a malformed JSON body
make the voyager call return the empty payload; a failed voyager call leaves
the guest description untouched and yields an empty posted-at; a failed (or
otherwise empty) guest call leaves the voyager-derived description and
posted-at untouched. -/
theorem C8_failure_degrades_empty :
    (∀ g : GuestResp, g.raised = true ∨ g.status ≠ 200 ∨ g.bodyBlank = true →
        fetch_guest_jd g = "")
    ∧ (∀ v : VoyagerResp,
        v.raised = true ∨ v.status ≠ 200 ∨ v.bodyBlank = true ∨ v.parsed = none →
        fetch_voyager_json v = .obj [])
    ∧ (∀ (g : GuestResp) (v : VoyagerResp) (idx : Nat),
        fetch_voyager_json v = .obj [] →
        fetch_jd_and_posted_at g v idx = (fetch_guest_jd g, ""))
    ∧ (∀ (g : GuestResp) (v : VoyagerResp) (idx : Nat),
        fetch_guest_jd g = "" →
        fetch_jd_and_posted_at g v idx =
          ((if jvalTruthy (fetch_voyager_json v) then voyagerJdOf (fetch_voyager_json v) else ""),
           (if jvalTruthy (fetch_voyager_json v) then extract_posted_at (fetch_voyager_json v) else ""))) := by
  refine ⟨?_, ?_, ?_, ?_⟩
  · rintro g (h | h | h) <;> simp [fetch_guest_jd, h]
  · rintro v (h | h | h | h) <;> simp [fetch_voyager_json, h]
  · intro g v idx h
    by_cases hg : fetch_guest_jd g = "" <;>
      simp [fetch_jd_and_posted_at, h, hg, jvalTruthy]
  · intro g v idx h
    simp [fetch_jd_and_posted_at, h]

/-- Witness for C8: a raised guest request and a malformed voyager body. -/
theorem C8_witness :
    fetch_guest_jd guestFail = "" ∧ fetch_voyager_json voyagerBadJson = .obj [] :=
  ⟨C8_failure_degrades_empty.1 guestFail (Or.inl rfl),
   C8_failure_degrades_empty.2.1 voyagerBadJson (Or.inr (Or.inr (Or.inr rfl)))⟩

/- =====================================================================
   C9: per-listing failure handling.
===================================================================== -/

theorem collectJobsAux_raise_skip (cfg : CollectorCfg) (st : StoreM) (s : Nat)
    (id : String) (rest : List (String × ListingOutcome)) :
    collectJobsAux cfg st s ((id, ListingOutcome.raise) :: rest)
      = collectJobsAux cfg st s rest := by
  by_cases h : storeHas st id <;> simp [collectJobsAux, h]

theorem collectJobs_all_raise (cfg : CollectorCfg) (st : StoreM) :
    ∀ ids : List String,
      _collect_jobs cfg st (ids.map (fun i => (i, ListingOutcome.raise))) = (st, false) := by
  intro ids
  induction ids with
  | nil => rfl
  | cons i rest ih =>
    simp only [List.map_cons, _collect_jobs] at ih ⊢
    rw [collectJobsAux_raise_skip]
    exact ih

/-- C9 (counterexample to the claim as stated): a listing whose company
enrichment raises (caught by the inner try of lines 1119-1137) is not
skipped -- it is appended to the store, with the enrichment columns set to
the sentinel. -/
theorem C9_counterexample :
    dEnrichFail.enrichment = none
      ∧ (_collect_jobs cfgEnrich emptyStore [("123", ListingOutcome.ok dEnrichFail)]).1.rows
        = [⟨"123", "Engineer", "desc", some 1, "cannot fetch", "cannot fetch", "cannot fetch"⟩] := by
  exact ⟨rfl, by decide⟩

/-- C9 (amended claim theorem): an exception at the per-listing boundary
(navigation, field extraction, fallback retrieval, store append) skips
exactly that listing, leaving the store and the stale streak untouched while
the loop continues with the remaining listings; a sequence made only of such
failures changes nothing and never aborts; an exception inside the company
enrichment block, by contrast, is caught at the inner boundary and the
listing is still appended, with all three enrichment fields set to the
sentinel. -/
theorem C9_amended_per_listing_failures :
    (∀ (cfg : CollectorCfg) (st : StoreM) (s : Nat) (id : String)
        (rest : List (String × ListingOutcome)),
        collectJobsAux cfg st s ((id, ListingOutcome.raise) :: rest)
          = collectJobsAux cfg st s rest)
    ∧ (∀ (cfg : CollectorCfg) (st : StoreM) (ids : List String),
        _collect_jobs cfg st (ids.map (fun i => (i, ListingOutcome.raise))) = (st, false))
    ∧ (∀ (cfg : CollectorCfg) (st : StoreM) (id : String) (d : ListingData),
        storeHas st id = false → titleBlacklisted cfg d.title = false →
        d.enrichment = none → cfg.fetch_company_about_enabled = true →
        (_collect_jobs cfg st [(id, ListingOutcome.ok d)]).1 =
          storeAdd st ⟨id, d.title, d.job_description, d.postedAge,
            "cannot fetch", "cannot fetch", "cannot fetch"⟩) := by
  refine ⟨collectJobsAux_raise_skip, fun cfg st ids => collectJobs_all_raise cfg st ids, ?_⟩
  intro cfg st id d hs hbl he hf
  have hcf : orCannotFetch "cannot fetch" = "cannot fetch" := rfl
  simp only [_collect_jobs, collectJobsAux, hs, hbl, enrichmentFields, hf, he,
    if_true, if_false, Bool.false_eq_true, hcf]
  split_ifs <;> rfl

/-- Witness for C9 (amended): concrete enrichment-failure listing appended
with sentinel enrichment fields. -/
theorem C9_witness :
    (_collect_jobs cfgEnrich emptyStore [("9", ListingOutcome.ok dEnrichFail)]).1 =
      storeAdd emptyStore ⟨"9", dEnrichFail.title, dEnrichFail.job_description,
        dEnrichFail.postedAge, "cannot fetch", "cannot fetch", "cannot fetch"⟩ :=
  C9_amended_per_listing_failures.2.2 cfgEnrich emptyStore "9" dEnrichFail rfl (by decide) rfl rfl

/- =====================================================================
   C1: the stale-postings policy (Stop B).
===================================================================== -/

/-- C1 (counterexample to the claim as stated): with threshold 30 days
and limit 3, posting ages 40d, 40d, unknown, 40d give a streak of 0 after
the third (unknown) record -- the code resets the streak in its else branch
(line 1182) -- and the policy does not trigger at the fourth record, whereas
the claim predicts streak values 1,2,2,3 and a trigger. -/
theorem C1_counterexample :
    (collectJobsAux cfgStopB emptyStore 0 (staleSeq4.take 3)).streak = 0
      ∧ (_collect_jobs cfgStopB emptyStore staleSeq4).2 = false := by
  exact ⟨by decide, by decide⟩

theorem leadCount_ge_iff : ∀ (flags : List Bool) (N : Nat),
    N ≤ leadCount (fun b => b) flags
      ↔ N ≤ flags.length ∧ flags.take N = List.replicate N true := by
  intro flags
  induction flags with
  | nil => intro N; cases N <;> simp [leadCount]
  | cons b t ih =>
    intro N
    cases N with
    | zero => simp
    | succ m =>
      cases b
      · simp [leadCount, List.replicate_succ]
      · have heq : leadCount (fun b => b) (true :: t) = leadCount (fun b => b) t + 1 := by
          simp [leadCount]
        rw [heq, Nat.succ_le_succ_iff, ih m]
        simp [List.replicate_succ, Nat.succ_le_succ_iff]

theorem trailWindow_iff (N : Nat) (flags : List Bool) :
    trailWindow N flags ↔ N ≤ trailCount (fun b => b) flags := by
  rw [trailWindow, trailCount, leadCount_ge_iff flags.reverse N, List.length_reverse]

theorem trailCount_append (p : α → Bool) (l : List α) (a : α) :
    trailCount p (l ++ [a]) = if p a then trailCount p l + 1 else 0 := by
  simp only [trailCount, List.reverse_append, List.reverse_cons, List.reverse_nil,
    List.nil_append, List.cons_append, leadCount]

theorem trailCount_nil (p : α → Bool) : trailCount p [] = 0 := rfl

/-- Freshness is preserved by one append for the remaining (distinct) ids. -/
theorem storeHas_add_false (st : StoreM) (r : RecM) (x : String)
    (hx : storeHas st x = false) (hne : x ≠ r.jobID) :
    storeHas (storeAdd st r) x = false := by
  simp only [storeHas] at hx
  simp only [storeHas, storeAdd, List.contains_cons, Bool.or_eq_false_iff]
  exact ⟨beq_eq_false_iff_ne.mpr hne, hx⟩

theorem collectJobsAll_stop_iff (cfg : CollectorCfg)
    (hen : cfg.stop_old_posted_enabled = true) :
    ∀ (jobs : List (String × ListingData)) (st : StoreM) (flags0 : List Bool),
      (jobs.map Prod.fst).Nodup →
      (∀ p ∈ jobs, storeHas st p.1 = false) →
      (∀ p ∈ jobs, titleBlacklisted cfg p.2.title = false) →
      ((collectJobsAux cfg st (trailCount (fun b => b) flags0)
          (jobs.map (fun p => (p.1, ListingOutcome.ok p.2)))).shouldStop = true
        ↔ ∃ k < jobs.length, cfg.stop_old_posted_consecutive_limit ≤
            trailCount (fun b => b)
              (flags0 ++ (jobs.take (k+1)).map (fun p => staleAppend cfg p.2.postedAge))) := by
  intro jobs
  induction jobs with
  | nil =>
    intro st flags0 _ _ _
    simp [collectJobsAux]
  | cons j rest ih =>
    intro st flags0 hnd hfresh hbl
    rw [List.map_cons, List.nodup_cons] at hnd
    have hj : storeHas st j.1 = false := hfresh j (List.mem_cons_self j rest)
    have hbj : titleBlacklisted cfg j.2.title = false := hbl j (List.mem_cons_self j rest)
    have hstreak :
        (if staleAppend cfg j.2.postedAge = true
         then trailCount (fun b => b) flags0 + 1 else 0)
          = trailCount (fun b => b) (flags0 ++ [staleAppend cfg j.2.postedAge]) := by
      rw [trailCount_append]
    simp only [List.map_cons, collectJobsAux, hj, hbj, hen, Bool.false_eq_true,
      if_false, if_true, reduceIte]
    rw [hstreak]
    by_cases hstop : cfg.stop_old_posted_consecutive_limit
        ≤ trailCount (fun b => b) (flags0 ++ [staleAppend cfg j.2.postedAge])
    · rw [if_pos hstop]
      refine iff_of_true rfl ⟨0, by simp, ?_⟩
      simp only [List.take_succ_cons, List.take_zero, List.map_cons, List.map_nil]
      exact hstop
    · rw [if_neg hstop]
      have hfresh' : ∀ p ∈ rest,
          storeHas (storeAdd st
            ⟨j.1, j.2.title, j.2.job_description, j.2.postedAge,
              orCannotFetch (enrichmentFields cfg j.2).1,
              orCannotFetch (enrichmentFields cfg j.2).2.1,
              orCannotFetch (enrichmentFields cfg j.2).2.2⟩) p.1 = false := by
        intro p hp
        have hne : p.1 ≠ j.1 := by
          intro hEq
          exact hnd.1 (hEq ▸ List.mem_map_of_mem Prod.fst hp)
        exact storeHas_add_false st _ p.1 (hfresh p (List.mem_cons_of_mem j hp)) hne
      have hbl' : ∀ p ∈ rest, titleBlacklisted cfg p.2.title = false :=
        fun p hp => hbl p (List.mem_cons_of_mem j hp)
      rw [ih _ (flags0 ++ [staleAppend cfg j.2.postedAge]) hnd.2 hfresh' hbl']
      constructor
      · rintro ⟨k, hk, hle⟩
        refine ⟨k + 1, by simp only [List.length_cons]; omega, ?_⟩
        simpa [List.take_succ_cons, List.map_cons, List.append_assoc,
          List.singleton_append] using hle
      · rintro ⟨k, hk, hle⟩
        cases k with
        | zero =>
          exfalso
          apply hstop
          simp only [List.take_succ_cons, List.take_zero, List.map_cons,
            List.map_nil] at hle
          exact hle
        | succ k' =>
          refine ⟨k', by simp only [List.length_cons] at hk; omega, ?_⟩
          simpa [List.take_succ_cons, List.map_cons, List.append_assoc,
            List.singleton_append] using hle

/-- C1 (amended claim theorem): under the stale-postings policy (enabled,
threshold T, limit L), for any sequence of appended records, a record whose
posting date is missing or unparseable RESETS the consecutive-stale streak to
zero, exactly as a record whose parseable date is not older than T days does;
the streak increments only on a record whose parseable date is older than T
days; and the combination is abandoned exactly when some record completes a
run of L consecutive stale appended records (so ages 40d, 40d, unknown, 40d
with T=30, L=3 give streaks 1,2,0,1 and no trigger). -/
theorem C1_amended_stale_policy (cfg : CollectorCfg) (st : StoreM)
    (jobs : List (String × ListingData))
    (hen : cfg.stop_old_posted_enabled = true)
    (hnd : (jobs.map Prod.fst).Nodup)
    (hfresh : ∀ p ∈ jobs, storeHas st p.1 = false)
    (hbl : ∀ p ∈ jobs, titleBlacklisted cfg p.2.title = false) :
    (_collect_jobs cfg st (jobs.map (fun p => (p.1, ListingOutcome.ok p.2)))).2 = true
      ↔ ∃ k < jobs.length,
          trailWindow cfg.stop_old_posted_consecutive_limit
            ((jobs.take (k+1)).map (fun p => staleAppend cfg p.2.postedAge)) := by
  have h := collectJobsAll_stop_iff cfg hen jobs st [] hnd hfresh hbl
  simp only [List.nil_append, trailCount_nil] at h
  simpa only [trailWindow_iff] using h

/-- Witness for C1 (amended): three consecutive 40-day-old records with
threshold 30 and limit 3 trigger the stop. -/
theorem C1_witness :
    (_collect_jobs cfgStopB emptyStore
        (staleSeq3.map (fun p => (p.1, ListingOutcome.ok p.2)))).2 = true
      ↔ ∃ k < staleSeq3.length,
          trailWindow cfgStopB.stop_old_posted_consecutive_limit
            ((staleSeq3.take (k+1)).map (fun p => staleAppend cfgStopB p.2.postedAge)) :=
  C1_amended_stale_policy cfgStopB emptyStore staleSeq3 rfl (by decide)
    (fun p _ => rfl) (by decide)

/- =====================================================================
   C10: the stale streak is initialized per page-level call.
===================================================================== -/

theorem collectJobsAux_stop_le (cfg : CollectorCfg) :
    ∀ (jobs : List (String × ListingOutcome)) (st : StoreM) (s : Nat),
      (collectJobsAux cfg st s jobs).shouldStop = true →
      cfg.stop_old_posted_consecutive_limit ≤ s + jobs.length := by
  intro jobs
  induction jobs with
  | nil => intro st s h; simp [collectJobsAux] at h
  | cons j rest ih =>
    intro st s h
    obtain ⟨jid, out⟩ := j
    cases out with
    | raise =>
      simp only [collectJobsAux] at h
      by_cases h1 : storeHas st jid = true
      · rw [if_pos h1] at h
        have := ih st s h
        simp only [List.length_cons]; omega
      · rw [if_neg h1] at h
        have := ih st s h
        simp only [List.length_cons]; omega
    | ok d =>
      simp only [collectJobsAux] at h
      by_cases h1 : storeHas st jid = true
      · rw [if_pos h1] at h
        have := ih st s h
        simp only [List.length_cons]; omega
      · rw [if_neg h1] at h
        by_cases h2 : titleBlacklisted cfg d.title = true
        · rw [if_pos h2] at h
          have := ih st s h
          simp only [List.length_cons]; omega
        · rw [if_neg h2] at h
          have hb : (if staleAppend cfg d.postedAge = true then s + 1 else 0) ≤ s + 1 := by
            split <;> omega
          by_cases h3 : cfg.stop_old_posted_enabled = true
          · rw [if_pos h3] at h
            by_cases h4 : cfg.stop_old_posted_consecutive_limit
                ≤ (if staleAppend cfg d.postedAge = true then s + 1 else 0)
            · simp only [List.length_cons]; omega
            · rw [if_neg h4] at h
              have := ih _ _ h
              simp only [List.length_cons]; omega
          · rw [if_neg h3] at h
            have := ih _ _ h
            simp only [List.length_cons]; omega

theorem dedupFirstAux_length_le : ∀ (l : List String) (seen : List String),
    (dedupFirstAux seen l).length ≤ l.length := by
  intro l
  induction l with
  | nil => intro seen; simp [dedupFirstAux]
  | cons a t ih =>
    intro seen
    simp only [dedupFirstAux]
    split
    · exact Nat.le_succ_of_le (ih seen)
    · simpa using Nat.succ_le_succ (ih (a :: seen))

theorem collect_length_le (bl saved : List String) (links : List LinkEntry) :
    (collect_job_ids_from_result bl saved links).length ≤ links.length :=
  Nat.le_trans (dedupFirstAux_length_le _ [])
    (List.length_filterMap_le _ _)

theorem searchOneComboAux_no_oldstop (cfg : CollectorCfg) :
    ∀ (pages : List PageM) (st : StoreM) (es : Nat),
      (∀ p ∈ pages, p.links.length < cfg.stop_old_posted_consecutive_limit) →
      (searchOneComboAux cfg st es pages).stoppedByOld = false := by
  intro pages
  induction pages with
  | nil => intro st es _; rfl
  | cons p rest ih =>
    intro st es hp
    have hrest : ∀ q ∈ rest, q.links.length < cfg.stop_old_posted_consecutive_limit :=
      fun q hq => hp q (List.mem_cons_of_mem p hq)
    have hpr : (_collect_jobs cfg st
        ((collect_job_ids_from_result cfg.blacklist st.savedJobIDs p.links).map
          (fun i => (i, p.outcome i)))).2 = false := by
      by_contra hcon
      rw [Bool.not_eq_false] at hcon
      have hlen := collectJobsAux_stop_le cfg _ st 0 hcon
      have h1 : ((collect_job_ids_from_result cfg.blacklist st.savedJobIDs p.links).map
          (fun i => (i, p.outcome i))).length ≤ p.links.length := by
        rw [List.length_map]
        exact collect_length_le _ _ _
      have h2 := hp p (List.mem_cons_self p rest)
      omega
    simp only [searchOneComboAux, hpr, Bool.false_eq_true, if_false]
    by_cases hemp : (collect_job_ids_from_result cfg.blacklist st.savedJobIDs p.links).isEmpty = true
    · simp only [hemp, if_true]
      split <;> split <;> first | rfl | exact ih st _ hrest
    · rw [Bool.not_eq_true] at hemp
      simp only [hemp, Bool.false_eq_true, if_false]
      split <;> split <;> first | rfl | exact ih _ _ hrest

/-- C10 (claim theorem): the stale-postings streak is page-local.  The
Stop-B return can only happen when the per-page listing list itself is at
least as long as the consecutive limit (`old_job_streak` starts at 0 in every
`_collect_jobs` call), and a combination whose every page exposes fewer
listings than the limit never stops by Stop-B, no matter how many
consecutive stale records span the page boundaries. -/
theorem C10_streak_is_page_local :
    (∀ (cfg : CollectorCfg) (st : StoreM) (jobs : List (String × ListingOutcome)),
        (_collect_jobs cfg st jobs).2 = true →
        cfg.stop_old_posted_consecutive_limit ≤ jobs.length)
    ∧ (∀ (cfg : CollectorCfg) (st : StoreM) (pages : List PageM),
        (∀ p ∈ pages, p.links.length < cfg.stop_old_posted_consecutive_limit) →
        (_search_one_combo cfg st pages).stoppedByOld = false) := by
  constructor
  · intro cfg st jobs h
    have := collectJobsAux_stop_le cfg jobs st 0 h
    omega
  · intro cfg st pages hp
    exact searchOneComboAux_no_oldstop cfg pages st 0 hp

/-- Witness for C10: two one-listing pages under limit 3 never stop by B. -/
theorem C10_witness :
    (_search_one_combo cfgStopB emptyStore [pageA, pageA]).stoppedByOld = false :=
  C10_streak_is_page_local.2 cfgStopB emptyStore [pageA, pageA] (by decide)

/- =====================================================================
   C2: identifier uniqueness and idempotent resume.
===================================================================== -/

theorem dedupFirstAux_spec : ∀ (l seen : List String),
    (dedupFirstAux seen l).Nodup
      ∧ ∀ x ∈ dedupFirstAux seen l, x ∈ l ∧ x ∉ seen := by
  intro l
  induction l with
  | nil => intro seen; simp [dedupFirstAux]
  | cons a t ih =>
    intro seen
    simp only [dedupFirstAux]
    split
    · obtain ⟨h1, h2⟩ := ih seen
      exact ⟨h1, fun x hx =>
        ⟨List.mem_cons_of_mem a (h2 x hx).1, (h2 x hx).2⟩⟩
    · rename_i hcon
      obtain ⟨h1, h2⟩ := ih (a :: seen)
      constructor
      · rw [List.nodup_cons]
        exact ⟨fun hmem => (h2 a hmem).2 (List.mem_cons_self a seen), h1⟩
      · intro x hx
        rcases List.mem_cons.mp hx with hxa | hx'
        · subst hxa
          refine ⟨List.mem_cons_self x t, fun hmem => hcon ?_⟩
          exact List.elem_iff.mpr hmem
        · exact ⟨List.mem_cons_of_mem a (h2 x hx').1,
            fun hmem => (h2 x hx').2 (List.mem_cons_of_mem a hmem)⟩

theorem collect_nodup (bl saved : List String) (links : List LinkEntry) :
    (collect_job_ids_from_result bl saved links).Nodup :=
  (dedupFirstAux_spec _ []).1

theorem collect_not_saved (bl saved : List String) (links : List LinkEntry) :
    ∀ id ∈ collect_job_ids_from_result bl saved links,
      saved.contains id = false := by
  intro id hid
  have hmem := ((dedupFirstAux_spec _ []).2 id hid).1
  rw [List.mem_filterMap] at hmem
  obtain ⟨l, _, hf⟩ := hmem
  split at hf
  · exact absurd hf (by simp)
  · split at hf
    · exact absurd hf (by simp)
    · split at hf
      · exact absurd hf (by simp)
      · split at hf
        · exact absurd hf (by simp)
        · split at hf
          · exact absurd hf (by simp)
          · split at hf
            · exact absurd hf (by simp)
            · rename_i j hjid hguard hsaved
              obtain rfl : j = id := by injection hf
              simpa using hsaved

theorem storeAdd_inv (st : StoreM) (r : RecM)
    (hinv : storeInv st) (hfresh : storeHas st r.jobID = false) :
    storeInv (storeAdd st r) := by
  obtain ⟨hnd, hsub⟩ := hinv
  constructor
  · simp only [storeAdd, List.map_append, List.map_cons, List.map_nil]
    rw [List.nodup_append]
    refine ⟨hnd, List.nodup_singleton _, ?_⟩
    intro x hx hx1
    rw [List.mem_singleton] at hx1
    subst hx1
    rw [List.mem_map] at hx
    obtain ⟨row, hrow, hrowid⟩ := hx
    have := hsub row hrow
    rw [hrowid] at this
    simp only [storeHas] at hfresh
    rw [this] at hfresh
    cases hfresh
  · intro row hrow
    simp only [storeAdd, List.contains_cons]
    rcases List.mem_append.mp hrow with hold | hnew
    · rw [hsub row hold]
      simp
    · rw [List.mem_singleton] at hnew
      subst hnew
      simp

theorem collectJobsAux_inv (cfg : CollectorCfg) :
    ∀ (jobs : List (String × ListingOutcome)) (st : StoreM) (s : Nat),
      storeInv st → storeInv (collectJobsAux cfg st s jobs).store := by
  intro jobs
  induction jobs with
  | nil => intro st s h; exact h
  | cons j rest ih =>
    intro st s h
    obtain ⟨jid, out⟩ := j
    by_cases h1 : storeHas st jid = true
    · simpa only [collectJobsAux, h1, if_true] using ih st s h
    · rw [Bool.not_eq_true] at h1
      cases out with
      | raise => simpa only [collectJobsAux, h1, Bool.false_eq_true, if_false] using ih st s h
      | ok d =>
        simp only [collectJobsAux, h1, Bool.false_eq_true, if_false]
        have hadd := storeAdd_inv st
          ⟨jid, d.title, d.job_description, d.postedAge,
            orCannotFetch (enrichmentFields cfg d).1,
            orCannotFetch (enrichmentFields cfg d).2.1,
            orCannotFetch (enrichmentFields cfg d).2.2⟩ h h1
        repeat' split
        all_goals first | exact hadd | exact ih _ _ hadd | exact ih _ _ h

theorem searchOneComboAux_inv (cfg : CollectorCfg) :
    ∀ (pages : List PageM) (st : StoreM) (es : Nat),
      storeInv st → storeInv (searchOneComboAux cfg st es pages).store := by
  intro pages
  induction pages with
  | nil => intro st es h; exact h
  | cons p rest ih =>
    intro st es h
    have hcoll : storeInv (_collect_jobs cfg st
        ((collect_job_ids_from_result cfg.blacklist st.savedJobIDs p.links).map
          (fun i => (i, p.outcome i)))).1 :=
      collectJobsAux_inv cfg _ st 0 h
    simp only [searchOneComboAux]
    repeat' split
    all_goals first | exact h | exact hcoll | exact ih _ _ h | exact ih _ _ hcoll

theorem collect_all_saved_nil (bl saved : List String) (links : List LinkEntry)
    (h : ∀ l ∈ links, ∀ j, l.dataJobId = some j → saved.contains j = true) :
    collect_job_ids_from_result bl saved links = [] := by
  unfold collect_job_ids_from_result
  have hfm : (links.filterMap fun l =>
      if l.raises then none
      else if containsSub "Applied" l.text then none
      else if bl.contains l.text then none
      else
        match l.dataJobId with
        | none => none
        | some j =>
          if j = "" || j = "search" then none
          else if saved.contains j then none
          else some j) = [] := by
    rw [List.filterMap_eq_nil_iff]
    intro l hl
    split
    · rfl
    · split
      · rfl
      · split
        · rfl
        · split
          · rfl
          · split
            · rfl
            · rename_i j hjid hguard
              rw [if_pos (h l hl j hjid)]
  rw [hfm]
  rfl

theorem searchOneComboAux_rows_unchanged (cfg : CollectorCfg) :
    ∀ (pages : List PageM) (st : StoreM) (es : Nat),
      (∀ p ∈ pages, ∀ l ∈ p.links, ∀ j, l.dataJobId = some j →
        st.savedJobIDs.contains j = true) →
      (searchOneComboAux cfg st es pages).store.rows = st.rows := by
  intro pages
  induction pages with
  | nil => intro st es _; rfl
  | cons p rest ih =>
    intro st es h
    have hjobs : collect_job_ids_from_result cfg.blacklist st.savedJobIDs p.links = [] :=
      collect_all_saved_nil _ _ _ (h p (List.mem_cons_self p rest))
    simp only [searchOneComboAux, hjobs, List.isEmpty_nil, if_true]
    repeat' split
    all_goals first
      | rfl
      | exact ih st _ (fun q hq => h q (List.mem_cons_of_mem p hq))

/-- C2 (claim theorem): (i) the ids collected from a results page are
pairwise distinct and exclude every id already in the in-memory index;
(ii) a full per-combination run preserves the store invariant -- rows carry
pairwise distinct listing identifiers, all present in the index -- thanks to
the `store.has` re-check immediately before detail processing; (iii) running
a combination when every candidate id on every page is already in the index
appends nothing, so a second run over the same pages appends no duplicate. -/
theorem C2_no_duplicate_ids :
    (∀ (bl saved : List String) (links : List LinkEntry),
        (collect_job_ids_from_result bl saved links).Nodup
          ∧ ∀ id ∈ collect_job_ids_from_result bl saved links,
              saved.contains id = false)
    ∧ (∀ (cfg : CollectorCfg) (st : StoreM) (pages : List PageM),
        storeInv st → storeInv (_search_one_combo cfg st pages).store)
    ∧ (∀ (cfg : CollectorCfg) (st : StoreM) (pages : List PageM),
        (∀ p ∈ pages, ∀ l ∈ p.links, ∀ j, l.dataJobId = some j →
          st.savedJobIDs.contains j = true) →
        (_search_one_combo cfg st pages).store.rows = st.rows) := by
  refine ⟨?_, ?_, ?_⟩
  · intro bl saved links
    exact ⟨collect_nodup bl saved links, collect_not_saved bl saved links⟩
  · intro cfg st pages h
    exact searchOneComboAux_inv cfg pages st 0 h
  · intro cfg st pages h
    exact searchOneComboAux_rows_unchanged cfg pages st 0 h

/-- Witness for C2: the invariant survives a run over a fresh page, and a
page whose only candidate is already saved appends nothing. -/
theorem C2_witness :
    storeInv (_search_one_combo cfgStopB storeA [pageA]).store
      ∧ (_search_one_combo cfgStopB storeA [pageSaved]).store.rows = storeA.rows :=
  ⟨C2_no_duplicate_ids.2.1 cfgStopB storeA [pageA] (by decide),
   C2_no_duplicate_ids.2.2 cfgStopB storeA [pageSaved] (by decide)⟩

/- =====================================================================
   C3: the empty-pages stop policy (Stop C).
===================================================================== -/

theorem collectJobsAux_no_stop (cfg : CollectorCfg)
    (hB : cfg.stop_old_posted_enabled = false) :
    ∀ (jobs : List (String × ListingOutcome)) (st : StoreM) (s : Nat),
      (collectJobsAux cfg st s jobs).shouldStop = false := by
  intro jobs
  induction jobs with
  | nil => intro st s; rfl
  | cons j rest ih =>
    intro st s
    obtain ⟨jid, out⟩ := j
    cases out with
    | raise =>
      simp only [collectJobsAux]
      split
      · apply ih
      · apply ih
    | ok d =>
      simp only [collectJobsAux, hB, Bool.false_eq_true, if_false]
      repeat' split
      all_goals apply ih

theorem emptyFlags_append (a b : List Nat) :
    emptyFlags (a ++ b) = emptyFlags a ++ emptyFlags b := by
  simp [emptyFlags]

theorem emptyFlags_take (j : Nat) (l : List Nat) :
    emptyFlags (l.take j) = (emptyFlags l).take j := by
  simp [emptyFlags, List.map_take]

theorem emptyFlags_length (l : List Nat) : (emptyFlags l).length = l.length := by
  simp [emptyFlags]

theorem searchOneComboAux_emptyStop_char (cfg : CollectorCfg)
    (hen : cfg.stop_empty_pages_enabled = true)
    (hN : 1 ≤ cfg.stop_empty_pages_consecutive_limit)
    (hB : cfg.stop_old_posted_enabled = false) :
    ∀ (pages : List PageM) (st : StoreM) (t0 : List Nat),
      (∀ j ≤ t0.length, ¬ trailWindow cfg.stop_empty_pages_consecutive_limit
          (emptyFlags (t0.take j))) →
      ((searchOneComboAux cfg st (trailCount (fun b => b) (emptyFlags t0)) pages).stoppedByEmpty = true →
          trailWindow cfg.stop_empty_pages_consecutive_limit
            (emptyFlags (t0 ++ (searchOneComboAux cfg st
              (trailCount (fun b => b) (emptyFlags t0)) pages).trace))
          ∧ ∀ j < t0.length + (searchOneComboAux cfg st
              (trailCount (fun b => b) (emptyFlags t0)) pages).trace.length,
              ¬ trailWindow cfg.stop_empty_pages_consecutive_limit
                (emptyFlags ((t0 ++ (searchOneComboAux cfg st
                  (trailCount (fun b => b) (emptyFlags t0)) pages).trace).take j)))
      ∧ ((searchOneComboAux cfg st (trailCount (fun b => b) (emptyFlags t0)) pages).stoppedByEmpty = false →
          (searchOneComboAux cfg st
            (trailCount (fun b => b) (emptyFlags t0)) pages).trace.length = pages.length
          ∧ ∀ j ≤ t0.length + (searchOneComboAux cfg st
              (trailCount (fun b => b) (emptyFlags t0)) pages).trace.length,
              ¬ trailWindow cfg.stop_empty_pages_consecutive_limit
                (emptyFlags ((t0 ++ (searchOneComboAux cfg st
                  (trailCount (fun b => b) (emptyFlags t0)) pages).trace).take j))) := by
  intro pages
  induction pages with
  | nil =>
    intro st t0 hno
    constructor
    · intro hstop
      cases hstop
    · intro _
      refine ⟨rfl, ?_⟩
      intro j hj
      simp only [searchOneComboAux, List.append_nil] at hj ⊢
      exact hno j (by simpa using hj)
  | cons p rest ih =>
    intro st t0 hno
    have hnofull : ¬ trailWindow cfg.stop_empty_pages_consecutive_limit (emptyFlags t0) := by
      have := hno t0.length (Nat.le_refl _)
      simpa [List.take_length] using this
    by_cases hemp : (collect_job_ids_from_result cfg.blacklist st.savedJobIDs p.links).isEmpty = true
    · -- empty page: flag true, streak increments
      have hn0 : (collect_job_ids_from_result cfg.blacklist st.savedJobIDs p.links).length = 0 := by
        rw [List.isEmpty_iff] at hemp
        simp [hemp]
      have hflag : emptyFlags (t0 ++
          [(collect_job_ids_from_result cfg.blacklist st.savedJobIDs p.links).length])
            = emptyFlags t0 ++ [true] := by
        rw [emptyFlags_append, hn0]
        rfl
      have hstreak : trailCount (fun b => b) (emptyFlags (t0 ++
          [(collect_job_ids_from_result cfg.blacklist st.savedJobIDs p.links).length]))
            = trailCount (fun b => b) (emptyFlags t0) + 1 := by
        rw [hflag, trailCount_append]
        rfl
      by_cases hstop : cfg.stop_empty_pages_consecutive_limit
          ≤ trailCount (fun b => b) (emptyFlags t0) + 1
      · -- Stop C triggers on this page
        have hcond : (true && decide (cfg.stop_empty_pages_consecutive_limit ≤
            trailCount (fun b => b) (emptyFlags t0) + 1)) = true := by
          simpa using hstop
        simp only [searchOneComboAux, hen, if_true, hemp, hcond]
        constructor
        · intro _
          constructor
          · rw [trailWindow_iff, hstreak]
            exact hstop
          · intro j hj
            simp only [List.length_cons, List.length_nil] at hj
            have hj' : j ≤ t0.length := by omega
            rw [List.take_append_of_le_length hj']
            exact hno j hj'
        · intro hfalse
          cases hfalse
      · -- no stop: recurse with streak + 1
        have hcond : (true && decide (cfg.stop_empty_pages_consecutive_limit ≤
            trailCount (fun b => b) (emptyFlags t0) + 1)) = false := by
          simpa using hstop
        have hno' : ∀ j ≤ (t0 ++
            [(collect_job_ids_from_result cfg.blacklist st.savedJobIDs p.links).length]).length,
            ¬ trailWindow cfg.stop_empty_pages_consecutive_limit
              (emptyFlags ((t0 ++
                [(collect_job_ids_from_result cfg.blacklist st.savedJobIDs p.links).length]).take j)) := by
          intro j hj
          simp only [List.length_append, List.length_cons, List.length_nil] at hj
          by_cases hj' : j ≤ t0.length
          · rw [List.take_append_of_le_length hj']
            exact hno j hj'
          · have hj2 : j = t0.length + 1 := by omega
            subst hj2
            rw [List.take_of_length_le (by simp)]
            rw [trailWindow_iff, hstreak]
            exact hstop
        have hrec := ih st (t0 ++
          [(collect_job_ids_from_result cfg.blacklist st.savedJobIDs p.links).length]) hno'
        rw [hstreak] at hrec
        simp only [searchOneComboAux, hen, if_true, hemp, hcond, Bool.false_eq_true, if_false]
        simp only [List.append_assoc, List.singleton_append, List.length_append,
          List.length_cons, List.length_nil] at hrec ⊢
        constructor
        · intro htrue
          obtain ⟨hw, hmin⟩ := hrec.1 htrue
          refine ⟨hw, ?_⟩
          intro j hj
          exact hmin j (by omega)
        · intro hfalse
          obtain ⟨hlen, hmin⟩ := hrec.2 hfalse
          refine ⟨by simpa using hlen, ?_⟩
          intro j hj
          exact hmin j (by omega)
    · -- page with new identifiers: flag false, streak resets to 0
      rw [Bool.not_eq_true] at hemp
      have hn0 : ((collect_job_ids_from_result cfg.blacklist st.savedJobIDs p.links).length == 0)
          = false := by
        rw [List.isEmpty_eq_false_iff_exists_mem] at hemp
        obtain ⟨x, hx⟩ := hemp
        have : 0 < (collect_job_ids_from_result cfg.blacklist st.savedJobIDs p.links).length :=
          List.length_pos_of_mem hx
        simpa using Nat.pos_iff_ne_zero.mp this
      have hflag : emptyFlags (t0 ++
          [(collect_job_ids_from_result cfg.blacklist st.savedJobIDs p.links).length])
            = emptyFlags t0 ++ [false] := by
        rw [emptyFlags_append]
        simp [emptyFlags, hn0]
      have hstreak : trailCount (fun b => b) (emptyFlags (t0 ++
          [(collect_job_ids_from_result cfg.blacklist st.savedJobIDs p.links).length])) = 0 := by
        rw [hflag, trailCount_append]
        rfl
      have hcond : (true && decide (cfg.stop_empty_pages_consecutive_limit ≤ 0)) = false := by
        simp only [Bool.true_and, decide_eq_false_iff_not]
        omega
      have hpr : (_collect_jobs cfg st
          ((collect_job_ids_from_result cfg.blacklist st.savedJobIDs p.links).map
            (fun i => (i, p.outcome i)))).2 = false :=
        collectJobsAux_no_stop cfg hB _ st 0
      have hno' : ∀ j ≤ (t0 ++
          [(collect_job_ids_from_result cfg.blacklist st.savedJobIDs p.links).length]).length,
          ¬ trailWindow cfg.stop_empty_pages_consecutive_limit
            (emptyFlags ((t0 ++
              [(collect_job_ids_from_result cfg.blacklist st.savedJobIDs p.links).length]).take j)) := by
        intro j hj
        simp only [List.length_append, List.length_cons, List.length_nil] at hj
        by_cases hj' : j ≤ t0.length
        · rw [List.take_append_of_le_length hj']
          exact hno j hj'
        · have hj2 : j = t0.length + 1 := by omega
          subst hj2
          rw [List.take_of_length_le (by simp)]
          rw [trailWindow_iff, hstreak]
          omega
      have hrec := ih (_collect_jobs cfg st
          ((collect_job_ids_from_result cfg.blacklist st.savedJobIDs p.links).map
            (fun i => (i, p.outcome i)))).1
        (t0 ++ [(collect_job_ids_from_result cfg.blacklist st.savedJobIDs p.links).length]) hno'
      rw [hstreak] at hrec
      simp only [searchOneComboAux, hen, if_true, hemp, hcond, Bool.false_eq_true, if_false, hpr]
      simp only [List.append_assoc, List.singleton_append, List.length_append,
        List.length_cons, List.length_nil] at hrec ⊢
      constructor
      · intro htrue
        obtain ⟨hw, hmin⟩ := hrec.1 htrue
        refine ⟨hw, ?_⟩
        intro j hj
        exact hmin j (by omega)
      · intro hfalse
        obtain ⟨hlen, hmin⟩ := hrec.2 hfalse
        refine ⟨by simpa using hlen, ?_⟩
        intro j hj
        exact hmin j (by omega)

/-- C3 (claim theorem): with the empty-pages policy enabled (limit N ≥ 1,
as the constructor's `max(1, ...)` guarantees) and the stale policy off, a
combination run stops by Stop C exactly at the N-th consecutive page with
zero new identifiers: when it stops, the consumed page trace ends in N
consecutive zero-count pages and no earlier prefix of the trace does (not
earlier); when it does not stop, the whole page list was consumed and no
prefix of the trace ever ends in N consecutive zero-count pages (not later).
A page with at least one new identifier breaks every such window, which is
the streak reset. -/
theorem C3_stop_empty_pages (cfg : CollectorCfg) (st : StoreM) (pages : List PageM)
    (hen : cfg.stop_empty_pages_enabled = true)
    (hN : 1 ≤ cfg.stop_empty_pages_consecutive_limit)
    (hB : cfg.stop_old_posted_enabled = false) :
    ((_search_one_combo cfg st pages).stoppedByEmpty = true →
        trailWindow cfg.stop_empty_pages_consecutive_limit
          (emptyFlags (_search_one_combo cfg st pages).trace)
        ∧ ∀ j < (_search_one_combo cfg st pages).trace.length,
            ¬ trailWindow cfg.stop_empty_pages_consecutive_limit
              (emptyFlags ((_search_one_combo cfg st pages).trace.take j)))
    ∧ ((_search_one_combo cfg st pages).stoppedByEmpty = false →
        (_search_one_combo cfg st pages).trace.length = pages.length
        ∧ ∀ j ≤ (_search_one_combo cfg st pages).trace.length,
            ¬ trailWindow cfg.stop_empty_pages_consecutive_limit
              (emptyFlags ((_search_one_combo cfg st pages).trace.take j))) := by
  have hno0 : ∀ j ≤ ([] : List Nat).length,
      ¬ trailWindow cfg.stop_empty_pages_consecutive_limit
        (emptyFlags (([] : List Nat).take j)) := by
    intro j hj hw
    have := hw.1
    simp only [List.take_nil, emptyFlags, List.map_nil, List.length_nil] at this
    omega
  have h := searchOneComboAux_emptyStop_char cfg hen hN hB pages st [] hno0
  have h0 : trailCount (fun b => b) (emptyFlags ([] : List Nat)) = 0 := rfl
  rw [h0] at h
  simpa only [_search_one_combo, List.nil_append, List.length_nil, Nat.zero_add] using h

/-- Witness for C3: three empty pages with limit 3 trigger the policy with
an all-empty consumed trace. -/
theorem C3_witness :
    ((_search_one_combo cfgStopCon emptyStore pagesEmpty3).stoppedByEmpty = true →
        trailWindow cfgStopCon.stop_empty_pages_consecutive_limit
          (emptyFlags (_search_one_combo cfgStopCon emptyStore pagesEmpty3).trace)
        ∧ ∀ j < (_search_one_combo cfgStopCon emptyStore pagesEmpty3).trace.length,
            ¬ trailWindow cfgStopCon.stop_empty_pages_consecutive_limit
              (emptyFlags ((_search_one_combo cfgStopCon emptyStore pagesEmpty3).trace.take j)))
    ∧ ((_search_one_combo cfgStopCon emptyStore pagesEmpty3).stoppedByEmpty = false →
        (_search_one_combo cfgStopCon emptyStore pagesEmpty3).trace.length = pagesEmpty3.length
        ∧ ∀ j ≤ (_search_one_combo cfgStopCon emptyStore pagesEmpty3).trace.length,
            ¬ trailWindow cfgStopCon.stop_empty_pages_consecutive_limit
              (emptyFlags ((_search_one_combo cfgStopCon emptyStore pagesEmpty3).trace.take j))) :=
  C3_stop_empty_pages cfgStopCon emptyStore pagesEmpty3 rfl (by decide) rfl

/- =====================================================================
   C5: company-URL normalization.
===================================================================== -/

theorem matchLitCI_self : ∀ (pat rest : List Char),
    (∀ c ∈ pat, lowerChar c = c) →
    matchLitCI pat (pat ++ rest) = some (pat, rest) := by
  intro pat
  induction pat with
  | nil => intro rest _; rfl
  | cons p ps ih =>
    intro rest h
    simp only [List.cons_append, matchLitCI, List.append_eq]
    rw [h p (List.mem_cons_self _ _), if_pos rfl,
      ih rest (fun c hc => h c (List.mem_cons_of_mem p hc))]

theorem takeWhile_append_all (p : Char → Bool) : ∀ (a b : List Char),
    (∀ c ∈ a, p c = true) →
    (b = [] ∨ ∃ c rest, b = c :: rest ∧ p c = false) →
    (a ++ b).takeWhile p = a := by
  intro a
  induction a with
  | nil =>
    intro b _ hb
    rcases hb with rfl | ⟨c, rest, rfl, hc⟩
    · rfl
    · simp [List.takeWhile_cons, hc]
  | cons x xs ih =>
    intro b ha hb
    rw [List.cons_append, List.takeWhile_cons, if_pos (ha x (List.mem_cons_self _ _)),
      ih b (fun c hc => ha c (List.mem_cons_of_mem x hc)) hb]

theorem matchCompanyAt_nil : matchCompanyAt [] = none := rfl

theorem slugChar_ne_slash (c : Char) (h : slugChar c = true) : c ≠ '/' := by
  intro hc
  subst hc
  simp [slugChar] at h

theorem rstripSlash_of_last_ne (a : List Char) (c : Char) (h : c ≠ '/') :
    rstripSlash (a ++ [c]) = a ++ [c] := by
  simp only [rstripSlash, List.reverse_append, List.reverse_cons, List.reverse_nil,
    List.nil_append, List.cons_append, List.dropWhile_cons]
  simp [h]

theorem matchCompanyAt_https (slugL sufL : List Char)
    (hs1 : slugL ≠ []) (hs2 : ∀ c ∈ slugL, slugChar c = true)
    (hsuf : sufL = [] ∨ ∃ c rest, sufL = c :: rest ∧ slugChar c = false) :
    matchCompanyAt ("https://www.linkedin.com/company/".data ++ slugL ++ sufL)
      = some ("https://www.linkedin.com/company/".data ++ slugL) := by
  have hdecomp : "https://www.linkedin.com/company/".data
      = "http".data ++ 's' :: companyPat := by decide
  have hslI : slugL.isEmpty = false := by
    cases slugL with
    | nil => exact absurd rfl hs1
    | cons a l => rfl
  have htake : (slugL ++ sufL).takeWhile slugChar = slugL :=
    takeWhile_append_all slugChar slugL sufL hs2 hsuf
  rw [hdecomp]
  have harr : ("http".data ++ 's' :: companyPat) ++ slugL ++ sufL
      = "http".data ++ 's' :: (companyPat ++ (slugL ++ sufL)) := by
    simp [List.append_assoc]
  rw [harr]
  simp only [matchCompanyAt, matchLitCI_self "http".data _ (by decide)]
  rw [if_pos (by decide : lowerChar 's' = 's')]
  rw [matchLitCI_self companyPat _ (by decide)]
  simp only [htake, hslI, Bool.false_eq_true, if_false, List.singleton_append,
    List.append_assoc]

theorem searchCompany_of_first : ∀ (n : Nat) (l : List Char) (m : List Char),
    (∀ i < n, matchCompanyAt (l.drop i) = none) →
    matchCompanyAt (l.drop n) = some m →
    searchCompany l = some m := by
  intro n
  induction n with
  | zero =>
    intro l m _ hn
    cases l with
    | nil => rw [List.drop_nil] at hn; rw [matchCompanyAt_nil] at hn; cases hn
    | cons c cs =>
      rw [List.drop_zero] at hn
      simp only [searchCompany, hn]
  | succ k ih =>
    intro l m h hn
    cases l with
    | nil => rw [List.drop_nil] at hn; rw [matchCompanyAt_nil] at hn; cases hn
    | cons c cs =>
      have h0 : matchCompanyAt (c :: cs) = none := by
        have := h 0 (Nat.succ_pos k)
        simpa using this
      simp only [searchCompany, h0]
      exact ih cs m (fun i hi => by simpa using h (i + 1) (Nat.succ_lt_succ hi))
        (by simpa using hn)

theorem searchCompany_none : ∀ (l : List Char),
    (∀ i < l.length, matchCompanyAt (l.drop i) = none) → searchCompany l = none := by
  intro l
  induction l with
  | nil => intro _; rfl
  | cons c cs ih =>
    intro h
    have h0 : matchCompanyAt (c :: cs) = none := by
      have := h 0 (by simp)
      simpa using this
    simp only [searchCompany, h0]
    exact ih (fun i hi => by
      simpa using h (i + 1) (by simpa using Nat.succ_lt_succ hi))

/-- C5 (counterexample to the claim as stated): the regex is
case-insensitive, also matches the http scheme, and `re.search` takes the
leftmost match.  An input that does contain the canonical https prefix can
therefore normalize to an http URL: here the leftmost match wins and the
result does not even start with the canonical https root. -/
theorem C5_counterexample :
    containsSub "https://www.linkedin.com/company/b"
        "http://www.linkedin.com/company/a#https://www.linkedin.com/company/b" = true
      ∧ normalize_company_url
          "http://www.linkedin.com/company/a#https://www.linkedin.com/company/b"
          = "http://www.linkedin.com/company/a/"
      ∧ listStartsWith "https://www.linkedin.com/company/".data
          (normalize_company_url
            "http://www.linkedin.com/company/a#https://www.linkedin.com/company/b").data
          = false := by
  refine ⟨by decide, by decide, by decide⟩

/-- C5 (amended claim theorem): when the leftmost case-insensitive
http(s) company-URL match of the stripped input is the exact lowercase
https form, normalization returns https://www.linkedin.com/company/slug/
with any path suffix and query parameters discarded; and it returns the
empty string exactly when no case-insensitive http(s) company-URL prefix
occurs anywhere in the stripped input (empty input and unrecognized domains
included).  A leftmost match with another scheme or casing is returned as
matched (see the counterexample). -/
theorem C5_amended_normalization :
    (∀ (pre slug suf : String),
        (∀ i < pre.data.length,
          matchCompanyAt
            (((pre ++ "https://www.linkedin.com/company/" ++ slug ++ suf).data).drop i)
              = none) →
        slug.data ≠ [] →
        (∀ c ∈ slug.data, slugChar c = true) →
        (suf.data = [] ∨ ∃ c rest, suf.data = c :: rest ∧ slugChar c = false) →
        pyStrip (pre ++ "https://www.linkedin.com/company/" ++ slug ++ suf)
          = pre ++ "https://www.linkedin.com/company/" ++ slug ++ suf →
        normalize_company_url (pre ++ "https://www.linkedin.com/company/" ++ slug ++ suf)
          = "https://www.linkedin.com/company/" ++ slug ++ "/")
    ∧ (∀ u : String,
        (∀ i < (pyStrip u).data.length, matchCompanyAt ((pyStrip u).data.drop i) = none) →
        normalize_company_url u = "") := by
  constructor
  · intro pre slug suf hpre hs1 hs2 hsuf hws
    have hdata : (pre ++ "https://www.linkedin.com/company/" ++ slug ++ suf).data
        = pre.data ++ ("https://www.linkedin.com/company/".data ++ (slug.data ++ suf.data)) := by
      simp [string_data_append, List.append_assoc]
    have hcanon : "https://www.linkedin.com/company/".data ≠ [] := by decide
    have hne : (pre ++ "https://www.linkedin.com/company/" ++ slug ++ suf) ≠ "" := by
      intro h
      have h2 : (pre ++ "https://www.linkedin.com/company/" ++ slug ++ suf).data
          = ([] : List Char) := congrArg String.data h
      rw [hdata] at h2
      rcases List.append_eq_nil.mp h2 with ⟨_, h4⟩
      rcases List.append_eq_nil.mp h4 with ⟨h5, _⟩
      exact hcanon h5
    have hsearch : searchCompany
        (pre ++ "https://www.linkedin.com/company/" ++ slug ++ suf).data
          = some ("https://www.linkedin.com/company/".data ++ slug.data) := by
      apply searchCompany_of_first pre.data.length _ _ hpre
      rw [hdata, List.drop_left, ← List.append_assoc]
      exact matchCompanyAt_https slug.data suf.data hs1 hs2 hsuf
    simp only [normalize_company_url, hws, if_neg hne, hsearch]
    rcases List.eq_nil_or_concat slug.data with hnil | ⟨L, b, hLb⟩
    · exact absurd hnil hs1
    · have hbmem : b ∈ slug.data := by
        rw [hLb, List.concat_eq_append]
        simp
      have hbne : b ≠ '/' := slugChar_ne_slash b (hs2 b hbmem)
      have hr : rstripSlash ("https://www.linkedin.com/company/".data ++ slug.data)
          = "https://www.linkedin.com/company/".data ++ slug.data := by
        rw [hLb, List.concat_eq_append, ← List.append_assoc]
        exact rstripSlash_of_last_ne _ b hbne
      rw [hr]
      have hdd : ("https://www.linkedin.com/company/" ++ slug ++ "/").data
          = ("https://www.linkedin.com/company/".data ++ slug.data) ++ ['/'] := by
        simp [string_data_append, List.append_assoc]
      exact congrArg String.mk hdd.symm
  · intro u h
    by_cases hu : pyStrip u = ""
    · simp [normalize_company_url, hu]
    · have hnone : searchCompany (pyStrip u).data = none := searchCompany_none _ h
      simp only [normalize_company_url, if_neg hu, hnone]

/-- Witness for C5 (amended): the spec's own example shape, with a leading
fragment, a path suffix, and query parameters. -/
theorem C5_witness :
    normalize_company_url
        ("see " ++ "https://www.linkedin.com/company/" ++ "acme" ++ "/life?x=1")
      = "https://www.linkedin.com/company/" ++ "acme" ++ "/" :=
  C5_amended_normalization.1 "see " "acme" "/life?x=1" (by decide) (by decide) (by decide)
    (Or.inr ⟨'/', "life?x=1".data, by decide, by decide⟩) (by decide)
